import Mathlib

/-!
Verification development for the frontend-alerts-telegram-bot repository.

The Python source is shallowly embedded:
* Python `str` is modelled as `List Char` (a list of Unicode code points,
  matching Python's `len`/slicing semantics, which count code points).
* Python `int`/`float` timestamps are modelled as `ℤ` (whole seconds; the
  claims under study only involve integer times).
* The mutable `RateLimiter` object (`app/core/rate_limiter.py`) becomes a
  structure with a total map from keys to timestamp lists (`defaultdict(list)`
  semantics: a missing key reads as `[]`), and each method returns its result
  together with the updated structure.
* The FastAPI route handlers (`app/routes/webhook.py`) become functions from
  the request data plus the behaviour of the injected Telegram delivery
  capability (timeout / HTTP status / ok-flag) to a `DispatchOutcome`,
  recording as explicit fields how many delivery calls and error-id
  generations the handler performed.
-/

/-- Convert a Lean string literal to the `List Char` representation used for
Python strings throughout this development. -/
def chars (s : String) : List Char := s.data

/-- `s.replace(c, r)` for a single-character pattern `c`: every occurrence of
`c` is replaced by `r`.  (For single-character patterns Python's sequential
`str.replace` coincides with this per-character map.) -/
def replaceChar (c : Char) (r : List Char) (s : List Char) : List Char :=
  s.flatMap (fun x => if x = c then r else [x])

/-- `_escape` from `app/services/telegram_service.py`:
`text.replace("&", "&amp;").replace("<", "&lt;").replace(">", "&gt;")`. -/
def pyEscape (s : List Char) : List Char :=
  replaceChar '>' (chars "&gt;")
    (replaceChar '<' (chars "&lt;")
      (replaceChar '&' (chars "&amp;") s))

/-! ## RateLimiter (`app/core/rate_limiter.py`) -/

/-- The mutable state of `RateLimiter`.  `requests` models the
`defaultdict(list)` field `_requests`: absent keys read as `[]`.
Timestamps are whole seconds as `ℤ`. -/
structure RateLimiter where
  max_requests : ℤ
  window_seconds : ℤ
  requests : List Char → List ℤ

/-- `RateLimiter(max_requests, window_seconds)`: empty request map. -/
def mkRateLimiter (max_requests window_seconds : ℤ) : RateLimiter :=
  ⟨max_requests, window_seconds, fun _ => []⟩

/-- The purge step shared by `is_allowed` and `remaining`:
`[ts for ts in l if ts > now - window_seconds]`. -/
def purgeL (window_seconds now : ℤ) (l : List ℤ) : List ℤ :=
  l.filter (fun ts => decide (now - window_seconds < ts))

/-- `RateLimiter.is_allowed(key)`; `now` (Python `time.time()`) is passed
explicitly.  Returns the boolean result and the post-call state: the purged
list is written back, and on admission `now` is appended. -/
def RateLimiter.is_allowed (rl : RateLimiter) (now : ℤ) (key : List Char) :
    Bool × RateLimiter :=
  let purged := purgeL rl.window_seconds now (rl.requests key)
  if rl.max_requests ≤ (purged.length : ℤ) then
    (false, { rl with requests := fun k => if k = key then purged else rl.requests k })
  else
    (true, { rl with requests := fun k => if k = key then purged ++ [now] else rl.requests k })

/-- `RateLimiter.remaining(key)`: purges (writing the purged list back) and
returns `max(0, max_requests - len(purged))`. -/
def RateLimiter.remaining (rl : RateLimiter) (now : ℤ) (key : List Char) :
    ℤ × RateLimiter :=
  let purged := purgeL rl.window_seconds now (rl.requests key)
  (max 0 (rl.max_requests - (purged.length : ℤ)),
   { rl with requests := fun k => if k = key then purged else rl.requests k })

/-- `RateLimiter.reset_time(key)`: no purge — reads the stored list directly;
`None` when empty, otherwise first stored timestamp plus the window length. -/
def RateLimiter.reset_time (rl : RateLimiter) (key : List Char) : Option ℤ :=
  match rl.requests key with
  | [] => none
  | t :: _ => some (t + rl.window_seconds)

/-- Run a sequence of `is_allowed` calls on a single key, one per element of
`ts` (each element being the `time.time()` value observed by that call).
Returns the list of `(now, result)` pairs together with the final state. -/
def runAllowed (rl : RateLimiter) (key : List Char) :
    List ℤ → List (ℤ × Bool) × RateLimiter
  | [] => ([], rl)
  | t :: ts =>
      let r := rl.is_allowed t key
      let rest := runAllowed r.2 key ts
      ((t, r.1) :: rest.1, rest.2)

/-- An observable call against the rate limiter (used for the reachable-state
invariant): each constructor carries the clock value the call observes. -/
inductive RLOp where
  | isAllowedOp (now : ℤ) (key : List Char)
  | remainingOp (now : ℤ) (key : List Char)
  | resetTimeOp (key : List Char)

/-- State effect of one rate-limiter call (returned values discarded). -/
def applyRLOp (rl : RateLimiter) : RLOp → RateLimiter
  | .isAllowedOp now key => (rl.is_allowed now key).2
  | .remainingOp now key => (rl.remaining now key).2
  | .resetTimeOp _ => rl

/-- State after a sequence of rate-limiter calls. -/
def runRLOps (rl : RateLimiter) : List RLOp → RateLimiter
  | [] => rl
  | op :: ops => runRLOps (applyRLOp rl op) ops

/-! ## Error payload data model (`app/models/error_payload.py`) -/

/-- `ErrorSeverity(str, Enum)`: the four recognized severities. -/
inductive ErrorSeverity where
  | critical
  | error
  | warning
  | info
deriving DecidableEq

/-- Python truthiness of an optional string / list / dict field:
`None` and the empty value are falsy. -/
def truthy {α : Type} : Option (List α) → Bool
  | none => false
  | some l => !l.isEmpty

/-- `DeviceInfo`.  The three usage gauges are percentages; they are modelled
as rationals (their one-decimal rendering abstracts Python's binary-float
`:.1f` formatting, whose half-even tie-breaking is immaterial to the claims
under study). -/
structure DeviceInfo where
  hostname : Option (List Char) := none
  os : Option (List Char) := none
  os_version : Option (List Char) := none
  ip_address : Option (List Char) := none
  architecture : Option (List Char) := none
  cpu_usage : Option ℚ := none
  memory_usage : Option ℚ := none
  disk_usage : Option ℚ := none

/-- `UserInfo`. -/
structure UserInfo where
  user_id : Option (List Char) := none
  username : Option (List Char) := none
  email : Option (List Char) := none
  session_id : Option (List Char) := none
  ip_address : Option (List Char) := none

/-- `ErrorContext`.  Dicts are association lists in insertion order. -/
structure ErrorContext where
  request_url : Option (List Char) := none
  request_method : Option (List Char) := none
  request_headers : Option (List (List Char × List Char)) := none
  request_body : Option (List Char) := none
  response_status : Option ℤ := none
  response_body : Option (List Char) := none
  query_params : Option (List (List Char × List Char)) := none

/-- `datetime` restricted to the fields `strftime("%Y-%m-%d %H:%M:%S UTC")`
reads. -/
structure DateTime where
  year : ℕ := 2024
  month : ℕ := 1
  day : ℕ := 1
  hour : ℕ := 0
  minute : ℕ := 0
  second : ℕ := 0

/-- `ErrorPayload`.  Metadata values are modelled after Python's `str(v)`
stringification, i.e. each value appears as the character list `str(v)`
produces (the formatter only ever uses `str(k)` / `str(v)`). -/
structure ErrorPayload where
  error_message : List Char
  severity : ErrorSeverity := .error
  error_type : Option (List Char) := none
  error_code : Option (List Char) := none
  stacktrace : Option (List Char) := none
  file_name : Option (List Char) := none
  line_number : Option ℕ := none
  function_name : Option (List Char) := none
  app_name : Option (List Char) := none
  app_version : Option (List Char) := none
  environment : Option (List Char) := none
  service_name : Option (List Char) := none
  component : Option (List Char) := none
  context : Option ErrorContext := none
  user : Option UserInfo := none
  device : Option DeviceInfo := none
  tags : Option (List (List Char × List Char)) := none
  metadata : Option (List (List Char × List Char)) := none
  timestamp : DateTime := {}
  fingerprint : Option (List Char) := none

/-! ## Decimal rendering helpers (Python `str(int)`, `f"{x:.1f}"`,
`strftime`) -/

/-- One decimal digit. -/
def digitChar (n : ℕ) : Char :=
  if n = 0 then '0' else if n = 1 then '1' else if n = 2 then '2'
  else if n = 3 then '3' else if n = 4 then '4' else if n = 5 then '5'
  else if n = 6 then '6' else if n = 7 then '7' else if n = 8 then '8'
  else '9'

/-- Fuelled decimal rendering of a natural number (most significant digit
first); `fuel ≥ 1 +` digit count always suffices, and the wrapper below
passes `n + 1`. -/
def natToCharsAux : ℕ → ℕ → List Char
  | 0, _ => []
  | fuel + 1, n =>
      if n < 10 then [digitChar n]
      else natToCharsAux fuel (n / 10) ++ [digitChar (n % 10)]

/-- Python `str(n)` for a natural number. -/
def natToChars (n : ℕ) : List Char := natToCharsAux (n + 1) n

/-- Python `str(i)` for an integer. -/
def intToChars (i : ℤ) : List Char :=
  if i < 0 then '-' :: natToChars i.natAbs else natToChars i.toNat

/-- Python `f"{x:.1f}"` on a rational: one digit after the decimal point
(rounding to the nearest tenth; the float tie-breaking edge case is
abstracted). -/
def format1f (q : ℚ) : List Char :=
  let t : ℤ := ⌊q * 10 + 1 / 2⌋
  intToChars (t / 10) ++ '.' :: natToChars (t % 10).toNat

/-- Zero-pad to two digits (`%m`, `%d`, `%H`, `%M`, `%S`). -/
def pad2 (n : ℕ) : List Char :=
  if n < 10 then '0' :: natToChars n else natToChars n

/-- Zero-pad to four digits (`%Y`). -/
def pad4 (n : ℕ) : List Char :=
  if n < 10 then chars "000" ++ natToChars n
  else if n < 100 then chars "00" ++ natToChars n
  else if n < 1000 then chars "0" ++ natToChars n
  else natToChars n

/-- `timestamp.strftime("%Y-%m-%d %H:%M:%S UTC")`. -/
def strftimeTs (t : DateTime) : List Char :=
  pad4 t.year ++ chars "-" ++ pad2 t.month ++ chars "-" ++ pad2 t.day
    ++ chars " " ++ pad2 t.hour ++ chars ":" ++ pad2 t.minute
    ++ chars ":" ++ pad2 t.second ++ chars " UTC"

/-! ## Message formatter (`app/services/telegram_service.py`) -/

/-- `SEVERITY_EMOJI` (the dict is total on the closed enum, so the `.get`
fallback `"⚪"` is unreachable and the lookup is a total function). -/
def SEVERITY_EMOJI : ErrorSeverity → List Char
  | .critical => [Char.ofNat 0x1f534]
  | .error => [Char.ofNat 0x1f7e0]
  | .warning => [Char.ofNat 0x1f7e1]
  | .info => [Char.ofNat 0x1f535]

/-- `SEVERITY_LABEL` (total on the closed enum; the `.get` fallback
`"UNKNOWN"` is unreachable). -/
def SEVERITY_LABEL : ErrorSeverity → List Char
  | .critical => chars "CRITICAL"
  | .error => chars "ERROR"
  | .warning => chars "WARNING"
  | .info => chars "INFO"

/-- The formatting-relevant configuration of `TelegramService`
(`MAX_STACKTRACE_LENGTH`, `MAX_METADATA_LENGTH`). -/
structure TelegramService where
  max_stacktrace : ℕ
  max_metadata : ℕ

/-- The settings defaults: stacktrace ceiling 2000, metadata ceiling 1000. -/
def defaultService : TelegramService := ⟨2000, 1000⟩

/-- Header line: `f"{emoji} <b>{label}</b> | <code>{error_id}</code>"`. -/
def headerLine (p : ErrorPayload) (error_id : List Char) : List Char :=
  SEVERITY_EMOJI p.severity ++ chars " <b>" ++ SEVERITY_LABEL p.severity
    ++ chars "</b> | <code>" ++ error_id ++ chars "</code>"

/-- `<b>Type:</b>` line (present only when `error_type` is truthy). -/
def typeParts (p : ErrorPayload) : List (List Char) :=
  if truthy p.error_type then
    [chars "<b>Type:</b> <code>" ++ pyEscape (p.error_type.getD []) ++ chars "</code>"]
  else []

/-- `<b>Code:</b>` line. -/
def codeParts (p : ErrorPayload) : List (List Char) :=
  if truthy p.error_code then
    [chars "<b>Code:</b> <code>" ++ pyEscape (p.error_code.getD []) ++ chars "</code>"]
  else []

/-- `<b>Location:</b>` line: file / line / function joined by `" | "`,
omitted when all three are absent. -/
def locationParts (p : ErrorPayload) : List (List Char) :=
  let location_parts :=
    (if truthy p.file_name then [p.file_name.getD []] else [])
    ++ (match p.line_number with
        | some n => [chars "line " ++ natToChars n]
        | none => [])
    ++ (if truthy p.function_name then
          [chars "in " ++ p.function_name.getD [] ++ chars "()"]
        else [])
  if !location_parts.isEmpty then
    [chars "<b>Location:</b> <code>"
      ++ pyEscape (List.intercalate (chars " | ") location_parts) ++ chars "</code>"]
  else []

/-- `<b>Application</b>` block. -/
def appParts (p : ErrorPayload) : List (List Char) :=
  let app_lines :=
    (if truthy p.app_name then [chars "  App: " ++ pyEscape (p.app_name.getD [])] else [])
    ++ (if truthy p.app_version then [chars "  Version: " ++ pyEscape (p.app_version.getD [])] else [])
    ++ (if truthy p.environment then [chars "  Env: " ++ pyEscape (p.environment.getD [])] else [])
    ++ (if truthy p.service_name then [chars "  Service: " ++ pyEscape (p.service_name.getD [])] else [])
    ++ (if truthy p.component then [chars "  Component: " ++ pyEscape (p.component.getD [])] else [])
  if !app_lines.isEmpty then chars "<b>Application</b>" :: app_lines ++ [[]] else []

/-- `<b>Request</b>` block from the context group. -/
def contextParts (p : ErrorPayload) : List (List Char) :=
  match p.context with
  | none => []
  | some ctx =>
    let ctx_lines :=
      (if truthy ctx.request_method && truthy ctx.request_url then
         [chars "  " ++ pyEscape (ctx.request_method.getD []) ++ chars " "
           ++ pyEscape (ctx.request_url.getD [])]
       else if truthy ctx.request_url then
         [chars "  URL: " ++ pyEscape (ctx.request_url.getD [])]
       else [])
      ++ (match ctx.response_status with
          | some s => [chars "  Status: " ++ intToChars s]
          | none => [])
      ++ (if truthy ctx.query_params then
            [chars "  Params: " ++ pyEscape (List.intercalate (chars ", ")
              ((ctx.query_params.getD []).map (fun kv => kv.1 ++ chars "=" ++ kv.2)))]
          else [])
    if !ctx_lines.isEmpty then chars "<b>Request</b>" :: ctx_lines ++ [[]] else []

/-- `<b>User</b>` block. -/
def userParts (p : ErrorPayload) : List (List Char) :=
  match p.user with
  | none => []
  | some u =>
    let user_lines :=
      (if truthy u.user_id then
         [chars "  ID: <code>" ++ pyEscape (u.user_id.getD []) ++ chars "</code>"] else [])
      ++ (if truthy u.username then [chars "  Username: " ++ pyEscape (u.username.getD [])] else [])
      ++ (if truthy u.email then [chars "  Email: " ++ pyEscape (u.email.getD [])] else [])
      ++ (if truthy u.session_id then
            [chars "  Session: <code>" ++ pyEscape (u.session_id.getD []) ++ chars "</code>"] else [])
      ++ (if truthy u.ip_address then
            [chars "  IP: <code>" ++ pyEscape (u.ip_address.getD []) ++ chars "</code>"] else [])
    if !user_lines.isEmpty then chars "<b>User</b>" :: user_lines ++ [[]] else []

/-- `<b>Server</b>` block: host / OS / IP / arch lines and the combined
`Resources` line. -/
def deviceParts (p : ErrorPayload) : List (List Char) :=
  match p.device with
  | none => []
  | some d =>
    let os_lines :=
      if truthy d.os then
        [chars "  OS: " ++ pyEscape ((d.os.getD [])
          ++ (if truthy d.os_version then ' ' :: d.os_version.getD [] else []))]
      else []
    let resource_parts :=
      (match d.cpu_usage with
       | some q => [chars "CPU " ++ format1f q ++ chars "%"] | none => [])
      ++ (match d.memory_usage with
          | some q => [chars "MEM " ++ format1f q ++ chars "%"] | none => [])
      ++ (match d.disk_usage with
          | some q => [chars "DISK " ++ format1f q ++ chars "%"] | none => [])
    let dev_lines :=
      (if truthy d.hostname then
         [chars "  Host: <code>" ++ pyEscape (d.hostname.getD []) ++ chars "</code>"] else [])
      ++ os_lines
      ++ (if truthy d.ip_address then
            [chars "  IP: <code>" ++ pyEscape (d.ip_address.getD []) ++ chars "</code>"] else [])
      ++ (if truthy d.architecture then [chars "  Arch: " ++ pyEscape (d.architecture.getD [])] else [])
      ++ (if !resource_parts.isEmpty then
            [chars "  Resources: " ++ List.intercalate (chars " | ") resource_parts] else [])
    if !dev_lines.isEmpty then chars "<b>Server</b>" :: dev_lines ++ [[]] else []

/-- `<b>Tags:</b>` line: `" ".join(f"<code>#{k}:{v}</code>")` with key and
value escaped. -/
def tagsParts (p : ErrorPayload) : List (List Char) :=
  if truthy p.tags then
    [chars "<b>Tags:</b> " ++ List.intercalate (chars " ")
      ((p.tags.getD []).map (fun kv =>
        chars "<code>#" ++ pyEscape kv.1 ++ chars ":" ++ pyEscape kv.2 ++ chars "</code>")),
     []]
  else []

/-- The joined, escaped metadata text before the ceiling cut:
`"\n".join(f"  {_escape(str(k))}: {_escape(str(v))}" ...)` over the first 20
entries. -/
def metaStrOf (p : ErrorPayload) : List Char :=
  List.intercalate (chars "\n")
    (((p.metadata.getD []).take 20).map (fun kv =>
      chars "  " ++ pyEscape kv.1 ++ chars ": " ++ pyEscape kv.2))

/-- `<b>Metadata</b>` block: the pre-escaped text is hard-cut at the
metadata ceiling with a trailing truncation marker. -/
def metadataParts (svc : TelegramService) (p : ErrorPayload) : List (List Char) :=
  if truthy p.metadata then
    let meta_str := metaStrOf p
    let meta_str2 :=
      if svc.max_metadata < meta_str.length then
        meta_str.take svc.max_metadata ++ chars "\n  ... (truncated)"
      else meta_str
    [chars "<b>Metadata</b>", chars "<pre>" ++ meta_str2 ++ chars "</pre>", []]
  else []

/-- `<b>Stacktrace</b>` block: the raw trace is cut at the stacktrace
ceiling (before escaping) with a trailing truncation marker. -/
def stacktraceParts (svc : TelegramService) (p : ErrorPayload) : List (List Char) :=
  if truthy p.stacktrace then
    let trace := p.stacktrace.getD []
    let trace2 :=
      if svc.max_stacktrace < trace.length then
        trace.take svc.max_stacktrace ++ chars "\n... (truncated)"
      else trace
    [chars "<b>Stacktrace</b>", chars "<pre>" ++ pyEscape trace2 ++ chars "</pre>", []]
  else []

/-- Footer timestamp line `<i>{ts}</i>`. -/
def tsLine (p : ErrorPayload) : List Char :=
  chars "<i>" ++ strftimeTs p.timestamp ++ chars "</i>"

/-- Footer fingerprint line, present when the fingerprint is truthy. -/
def fingerprintParts (p : ErrorPayload) : List (List Char) :=
  if truthy p.fingerprint then
    [chars "Fingerprint: <code>" ++ pyEscape (p.fingerprint.getD []) ++ chars "</code>"]
  else []

/-- The ordered `parts` list built by `_format_message` (each `parts.append`
of the source contributes, in source order). -/
def partsOf (svc : TelegramService) (p : ErrorPayload) (error_id : List Char) :
    List (List Char) :=
  [headerLine p error_id, []]
  ++ [chars "<b>Message:</b> " ++ pyEscape p.error_message]
  ++ typeParts p ++ codeParts p ++ locationParts p
  ++ [[]]
  ++ appParts p ++ contextParts p ++ userParts p ++ deviceParts p
  ++ tagsParts p ++ metadataParts svc p ++ stacktraceParts svc p
  ++ [tsLine p] ++ fingerprintParts p

/-- `message = "\n".join(parts)` before the final whole-message cut. -/
def assembleMessage (svc : TelegramService) (p : ErrorPayload) (error_id : List Char) :
    List Char :=
  List.intercalate (chars "\n") (partsOf svc p error_id)

/-- `TelegramService._format_message`: the assembled message, cut to 4080
characters with the truncation marker appended whenever it exceeds 4096. -/
def TelegramService.format_message (svc : TelegramService) (p : ErrorPayload)
    (error_id : List Char) : List Char :=
  let message := assembleMessage svc p error_id
  if 4096 < message.length then message.take 4080 ++ chars "\n\n... (truncated)"
  else message

/-! ## Dispatch (`app/routes/webhook.py`) -/

/-- The behaviour of one Telegram `sendMessage` call as observed by
`send_error_notification`: a transport timeout (`httpx.TimeoutException`),
any other transport exception, or an HTTP response carrying a status code
and the truthiness of the JSON body's `ok` flag. -/
inductive TelegramResponse where
  | timeout
  | transportError (reason : List Char)
  | response (statusCode : ℤ) (ok : Bool)

/-- `TelegramService.send_error_notification`: formats the message, invokes
the delivery capability on the formatted text, and classifies the result —
`False` on timeout, on any other transport error, on a non-200 status, and
on a response whose `ok` flag is not true; `True` otherwise. -/
def send_error_notification (svc : TelegramService) (p : ErrorPayload)
    (error_id : List Char) (delivery : List Char → TelegramResponse) : Bool :=
  let message := svc.format_message p error_id
  match delivery message with
  | .timeout => false
  | .transportError _ => false
  | .response statusCode ok => if statusCode ≠ 200 then false else ok

/-- The tri-state outcome of a dispatch, as surfaced by the route handlers
(HTTP 200 / 429 / 502). -/
inductive DispatchOutcome where
  | Delivered (error_id : List Char)
  | RateLimited (remaining : ℤ) (resetAt : Option ℤ)
  | DeliveryFailed (reason : List Char)
deriving DecidableEq

/-- Result of one route invocation: the outcome, the rate-limiter state it
leaves behind, and how many error-id generations (`generate_error_id`) and
delivery attempts (`send_error_notification`) it performed. -/
structure DispatchResult where
  outcome : DispatchOutcome
  limiter : RateLimiter
  idsGenerated : ℕ
  deliveryCalls : ℕ

/-- `rate_key = payload.fingerprint or "global"` (Python `or`: an absent or
empty fingerprint falls back to the global key). -/
def rateKey (p : ErrorPayload) : List Char :=
  match p.fingerprint with
  | some f => if f.isEmpty then chars "global" else f
  | none => chars "global"

/-- The HTTP 502 detail string of `/webhook/error`. -/
def deliveryFailDetail : List Char :=
  chars "Failed to deliver notification to Telegram. Check bot configuration."

/-- `receive_error` (`POST /webhook/error`), after the excluded
authentication/validation collaborators: rate-limit check first (denial
returns 429 with `remaining` and `reset_time`, generating no error id and
attempting no delivery), then id generation, then delivery and
classification. -/
def receive_error (svc : TelegramService) (rl : RateLimiter) (now : ℤ)
    (p : ErrorPayload) (error_id : List Char)
    (delivery : List Char → TelegramResponse) : DispatchResult :=
  let key := rateKey p
  let a := rl.is_allowed now key
  if a.1 then
    let sent := send_error_notification svc p error_id delivery
    if sent then ⟨.Delivered error_id, a.2, 1, 1⟩
    else ⟨.DeliveryFailed deliveryFailDetail, a.2, 1, 1⟩
  else
    let r := a.2.remaining now key
    let rt := r.2.reset_time key
    ⟨.RateLimited r.1 rt, r.2, 0, 0⟩

/-- The fixed synthetic payload built by `test_notification` (its timestamp
is the capture-time `datetime.utcnow()`). -/
def test_payload (ts : DateTime) : ErrorPayload :=
  { error_message := chars "This is a test notification from Jahiz Error Tracker"
    severity := .info
    error_type := some (chars "TestNotification")
    app_name := some (chars "Jahiz Error Tracker")
    environment := some (chars "test")
    timestamp := ts }

/-- The HTTP 502 detail string of `/webhook/test`. -/
def testFailDetail : List Char :=
  chars "Failed to send test notification. Verify TELEGRAM_BOT_TOKEN and TELEGRAM_CHAT_ID."

/-- `test_notification` (`POST /webhook/test`): builds the synthetic
payload, generates an error id and attempts delivery — the rate limiter is
never consulted (`rl` is passed through untouched). -/
def test_notification (svc : TelegramService) (rl : RateLimiter)
    (ts : DateTime) (error_id : List Char)
    (delivery : List Char → TelegramResponse) : DispatchResult :=
  let p := test_payload ts
  let sent := send_error_notification svc p error_id delivery
  if sent then ⟨.Delivered error_id, rl, 1, 1⟩
  else ⟨.DeliveryFailed testFailDetail, rl, 1, 1⟩

/-! ## Executable checkers

Tail-recursive checkers used to evaluate facts about long formatted
messages (their reduction stays in head position, unlike `List.length`),
each tied to the standard notion by a correctness lemma. -/

/-- `lenIs n l` decides `l.length = n` by simultaneous descent. -/
def lenIs {α : Type} : ℕ → List α → Bool
  | n + 1, _ :: l => lenIs n l
  | 0, [] => true
  | _, _ => false

theorem lenIs_iff {α : Type} : ∀ (n : ℕ) (l : List α), lenIs n l = true ↔ l.length = n := by
  intro n l
  induction l generalizing n with
  | nil => cases n <;> simp [lenIs]
  | cons a l ih =>
    cases n with
    | zero => simp [lenIs]
    | succ m => simpa [lenIs] using ih m

/-- `containsSeq pat l` decides whether `pat` occurs as a contiguous
subsequence of `l`. -/
def containsSeq (pat : List Char) : List Char → Bool
  | [] => pat.isPrefixOf []
  | c :: rest => pat.isPrefixOf (c :: rest) || containsSeq pat rest

theorem containsSeq_iff (pat : List Char) :
    ∀ l : List Char, containsSeq pat l = true ↔ pat <:+: l := by
  intro l
  induction l with
  | nil =>
    simp only [containsSeq, List.isPrefixOf_iff_prefix]
    constructor
    · exact fun h => h.isInfix
    · intro h
      exact (List.infix_nil.mp h) ▸ List.prefix_refl []
  | cons c rest ih =>
    simp [containsSeq, List.isPrefixOf_iff_prefix, List.infix_cons_iff, ih]

/-- Two-characters-per-step variant of `containsSeq` (same value; its
kernel-reduction depth is half, which matters when scanning formatted
messages of length > 4000). -/
def containsSeq2 (pat : List Char) : List Char → Bool
  | [] => pat.isPrefixOf []
  | [c] => pat.isPrefixOf [c]
  | c :: c2 :: rest =>
      pat.isPrefixOf (c :: c2 :: rest)
        || (pat.isPrefixOf (c2 :: rest) || containsSeq2 pat rest)

theorem containsSeq2_eq_aux (pat : List Char) :
    ∀ (n : ℕ) (l : List Char), l.length ≤ n → containsSeq2 pat l = containsSeq pat l := by
  intro n
  induction n with
  | zero =>
    intro l h
    match l with
    | [] => rfl
  | succ n ih =>
    intro l h
    match l with
    | [] => rfl
    | [c] => cases pat <;> simp [containsSeq2, containsSeq, List.isPrefixOf]
    | c :: c2 :: rest =>
      rw [show containsSeq2 pat (c :: c2 :: rest)
          = (pat.isPrefixOf (c :: c2 :: rest)
            || (pat.isPrefixOf (c2 :: rest) || containsSeq2 pat rest)) from rfl]
      rw [ih rest (by simp at h; omega)]
      simp [containsSeq]

theorem containsSeq2_iff (pat l : List Char) :
    containsSeq2 pat l = true ↔ pat <:+: l := by
  rw [containsSeq2_eq_aux pat l.length l le_rfl]
  exact containsSeq_iff pat l

/-! ## Generic lemmas about the assembly (`"\n".join(parts)`) -/

theorem intercalate_cons₂ {α : Type} (sep a b : List α) (l : List (List α)) :
    List.intercalate sep (a :: b :: l) = a ++ (sep ++ List.intercalate sep (b :: l)) := by
  simp [List.intercalate, List.intersperse]

theorem intercalate_suffix_of_append {α : Type} (sep : List α) :
    ∀ (front tail : List (List α)), tail ≠ [] →
      List.intercalate sep tail <:+ List.intercalate sep (front ++ tail) := by
  intro front
  induction front with
  | nil => intro tail _; simp
  | cons a front ih =>
    intro tail htail
    have hne : front ++ tail ≠ [] := by
      simp [List.append_eq_nil]
      intro _ h
      exact htail h
    obtain ⟨b, l, hbl⟩ : ∃ b l, front ++ tail = b :: l := by
      cases h : front ++ tail with
      | nil => exact absurd h hne
      | cons b l => exact ⟨b, l, rfl⟩
    have := ih tail htail
    rw [List.cons_append, hbl, intercalate_cons₂]
    rw [hbl] at this
    calc List.intercalate sep tail
        <:+ List.intercalate sep (b :: l) := this
      _ <:+ a ++ (sep ++ List.intercalate sep (b :: l)) := by
            rw [← List.append_assoc]
            exact List.suffix_append (a ++ sep) _

theorem format_message_overflow (svc : TelegramService) (p : ErrorPayload)
    (error_id : List Char) (h : 4096 < (assembleMessage svc p error_id).length) :
    svc.format_message p error_id
      = (assembleMessage svc p error_id).take 4080 ++ chars "\n\n... (truncated)" := by
  unfold TelegramService.format_message
  rw [if_pos h]

theorem format_message_no_overflow (svc : TelegramService) (p : ErrorPayload)
    (error_id : List Char) (h : (assembleMessage svc p error_id).length ≤ 4096) :
    svc.format_message p error_id = assembleMessage svc p error_id := by
  unfold TelegramService.format_message
  rw [if_neg (by omega)]

/-! ## Claim C1 — the 4096 ceiling -/

/-- A payload whose assembled message is 4104 characters long: a maximal
valid 4000-character message and no optional fields. -/
def pC1 : ErrorPayload := { error_message := List.replicate 4000 'a' }

/-- A 24-character error id as produced by `generate_error_id`
(`secrets.token_hex(12)`). -/
def idC1 : List Char := chars "0123456789abcdef01234567"

set_option maxRecDepth 40000 in
theorem pC1_assemble_length :
    (assembleMessage defaultService pC1 idC1).length = 4104 :=
  (lenIs_iff _ _).mp (by decide)

set_option maxRecDepth 40000 in
/-- C1: the final whole-message cut produces `message[:4080]` plus the
17-character marker `"\n\n... (truncated)"`, i.e. 4097 characters — one more
than the 4096 ceiling the code's own comment (and the spec) require.  The
4104-character assembled message of `pC1` is a concrete failing input. -/
theorem C1_format_length_exceeds_4096 :
    4096 < (defaultService.format_message pC1 idC1).length ∧
      (defaultService.format_message pC1 idC1).length = 4097 := by
  have hfmt := format_message_overflow defaultService pC1 idC1
    (by rw [pC1_assemble_length]; norm_num)
  have h97 : (defaultService.format_message pC1 idC1).length = 4097 := by
    rw [hfmt, List.length_append, List.length_take, pC1_assemble_length]
    decide
  exact ⟨by omega, h97⟩

/-! ## Claim C8 — what `is_allowed` mutates -/

/-- A limiter state holding a stale timestamp (−100) and a fresh one (0) for
key `"k"`, capacity 1, window 60. -/
def rlC8 : RateLimiter := ⟨1, 60, fun k => if k = chars "k" then [-100, 0] else []⟩

/-- C8 counterexample: at `now = 0` the call is denied, yet the stored list
for the key changes (the purge drops the stale −100 and is written back), so
a denial does not leave the key's stored state unchanged. -/
theorem C8_denial_mutates_state :
    (rlC8.is_allowed 0 (chars "k")).1 = false ∧
      (rlC8.is_allowed 0 (chars "k")).2.requests (chars "k") ≠ rlC8.requests (chars "k") ∧
      (rlC8.is_allowed 0 (chars "k")).2.requests (chars "k") = [0] := by
  refine ⟨by decide, ?_, by decide⟩
  intro h
  have h1 : (rlC8.is_allowed 0 (chars "k")).2.requests (chars "k") = [0] := by decide
  have h2 : rlC8.requests (chars "k") = [-100, 0] := by decide
  exact absurd (h1.symm.trans (h.trans h2)) (by decide)

/-- C8 amended: on every call the queried key's stored list becomes the
purged list — with `now` appended exactly when the call is allowed — and no
other key changes; in particular the denial path performs the purge (and
nothing else) rather than leaving the state untouched. -/
theorem C8_is_allowed_state_change (rl : RateLimiter) (now : ℤ) (key : List Char) :
    ((rl.is_allowed now key).1 = false →
      (rl.is_allowed now key).2.requests key
        = purgeL rl.window_seconds now (rl.requests key)) ∧
    ((rl.is_allowed now key).1 = true →
      (rl.is_allowed now key).2.requests key
        = purgeL rl.window_seconds now (rl.requests key) ++ [now]) ∧
    (∀ k, k ≠ key → (rl.is_allowed now key).2.requests k = rl.requests k) := by
  by_cases hcond :
      rl.max_requests ≤ ((purgeL rl.window_seconds now (rl.requests key)).length : ℤ)
  · refine ⟨fun _ => ?_, fun h => ?_, fun k hk => ?_⟩
    · simp [RateLimiter.is_allowed, hcond]
    · simp [RateLimiter.is_allowed, hcond] at h
    · simp [RateLimiter.is_allowed, hcond, hk]
  · refine ⟨fun h => ?_, fun _ => ?_, fun k hk => ?_⟩
    · simp [RateLimiter.is_allowed, hcond] at h
    · simp [RateLimiter.is_allowed, hcond]
    · simp [RateLimiter.is_allowed, hcond, hk]

/-- C8 witness: the amended theorem applied on both the allowed path
(fresh limiter) and the denial path (`rlC8`). -/
theorem C8_is_allowed_state_change_witness :
    ((mkRateLimiter 1 60).is_allowed 0 (chars "k")).2.requests (chars "k")
      = purgeL 60 0 ((mkRateLimiter 1 60).requests (chars "k")) ++ [0] ∧
    (rlC8.is_allowed 0 (chars "k")).2.requests (chars "k")
      = purgeL 60 0 (rlC8.requests (chars "k")) :=
  ⟨(C8_is_allowed_state_change (mkRateLimiter 1 60) 0 (chars "k")).2.1 (by decide),
   (C8_is_allowed_state_change rlC8 0 (chars "k")).1 (by decide)⟩

/-! ## Claim C4 — `reset_time` -/

/-- A limiter whose key `"k"` holds only the stale timestamp −100
(outside the window at `now = 0`), capacity 30, window 60. -/
def rlC4 : RateLimiter := ⟨30, 60, fun k => if k = chars "k" then [-100] else []⟩

/-- C4 counterexample: at `now = 0` the key has zero admissions inside the
trailing window, yet `reset_time` (which never purges) returns
`some (−100 + 60) = some (−40)` rather than `none`. -/
theorem C4_reset_time_stale_not_none :
    purgeL rlC4.window_seconds 0 (rlC4.requests (chars "k")) = [] ∧
      rlC4.reset_time (chars "k") = some (-40) ∧
      rlC4.reset_time (chars "k") ≠ none := by
  refine ⟨by decide, by decide, by decide⟩

/-- C4 amended: `reset_time` depends only on the stored (possibly stale)
list — `none` exactly when the stored list is empty, and first stored
timestamp plus the window length otherwise, whether or not that timestamp is
still inside the trailing window. -/
theorem C4_reset_time_stored_head (rl : RateLimiter) (key : List Char) :
    (rl.requests key = [] → rl.reset_time key = none) ∧
    (∀ t l, rl.requests key = t :: l →
      rl.reset_time key = some (t + rl.window_seconds)) := by
  unfold RateLimiter.reset_time
  constructor
  · intro h; rw [h]
  · intro t l h; rw [h]

/-- C4 witness: the amended theorem applied to `rlC4` (nonempty stored list,
stale head) and to an untouched key (empty stored list). -/
theorem C4_reset_time_stored_head_witness :
    rlC4.reset_time (chars "k") = some (-100 + 60) ∧
      rlC4.reset_time (chars "z") = none :=
  ⟨(C4_reset_time_stored_head rlC4 (chars "k")).2 (-100) [] (by decide),
   (C4_reset_time_stored_head rlC4 (chars "z")).1 (by decide)⟩

/-! ## Claim C6 — denial path of `receive_error` -/

/-- C6: when the rate limiter denies the record's key, `receive_error`
returns `RateLimited` carrying that key's `remaining` and `reset_time`,
generates no error id, and performs no delivery call. -/
theorem C6_rate_limited_path (svc : TelegramService) (rl : RateLimiter) (now : ℤ)
    (p : ErrorPayload) (error_id : List Char) (delivery : List Char → TelegramResponse)
    (h : (rl.is_allowed now (rateKey p)).1 = false) :
    (receive_error svc rl now p error_id delivery).outcome
      = .RateLimited ((rl.is_allowed now (rateKey p)).2.remaining now (rateKey p)).1
          ((((rl.is_allowed now (rateKey p)).2.remaining now (rateKey p)).2).reset_time
            (rateKey p)) ∧
    (receive_error svc rl now p error_id delivery).idsGenerated = 0 ∧
    (receive_error svc rl now p error_id delivery).deliveryCalls = 0 := by
  refine ⟨?_, ?_, ?_⟩ <;> simp [receive_error, h]

/-- A minimal valid payload (no fingerprint, so the global key is used). -/
def pMin : ErrorPayload := { error_message := chars "x" }

/-- A delivery capability that always reports success. -/
def okDelivery : List Char → TelegramResponse := fun _ => .response 200 true

/-- C6 witness: a capacity-0 limiter denies the global key; the dispatch is
rate-limited with `remaining = 0`, `reset` of the (empty) key `none`, no id,
no delivery. -/
theorem C6_rate_limited_path_witness :
    (receive_error defaultService (mkRateLimiter 0 60) 0 pMin idC1 okDelivery).outcome
        = .RateLimited 0 none ∧
    (receive_error defaultService (mkRateLimiter 0 60) 0 pMin idC1 okDelivery).idsGenerated = 0 ∧
    (receive_error defaultService (mkRateLimiter 0 60) 0 pMin idC1 okDelivery).deliveryCalls = 0 := by
  have h := C6_rate_limited_path defaultService (mkRateLimiter 0 60) 0 pMin idC1 okDelivery
    (by decide)
  refine ⟨?_, h.2.1, h.2.2⟩
  rw [h.1]
  decide

/-! ## Claim C7 — delivery-failure classification -/

/-- C7: for an admitted record, each of the three failure behaviours of the
injected delivery capability — transport timeout, non-200 HTTP status, and a
response whose `ok` flag is not true — yields the same `DeliveryFailed`
outcome (in particular, never `Delivered`). -/
theorem C7_delivery_failure_classification (svc : TelegramService) (rl : RateLimiter)
    (now : ℤ) (p : ErrorPayload) (error_id : List Char)
    (h : (rl.is_allowed now (rateKey p)).1 = true) :
    (receive_error svc rl now p error_id (fun _ => .timeout)).outcome
        = .DeliveryFailed deliveryFailDetail ∧
    (∀ statusCode : ℤ, statusCode ≠ 200 → ∀ ok : Bool,
      (receive_error svc rl now p error_id (fun _ => .response statusCode ok)).outcome
        = .DeliveryFailed deliveryFailDetail) ∧
    (∀ statusCode : ℤ,
      (receive_error svc rl now p error_id (fun _ => .response statusCode false)).outcome
        = .DeliveryFailed deliveryFailDetail) := by
  refine ⟨?_, fun s hs ok => ?_, fun s => ?_⟩
  · simp [receive_error, h, send_error_notification]
  · simp [receive_error, h, send_error_notification, hs]
  · by_cases hs : s = 200 <;> simp [receive_error, h, send_error_notification, hs]

/-- C7 witness: a fresh capacity-1 limiter admits the global key; timeout, a
500 status, and a 200-but-not-ok body all yield `DeliveryFailed`. -/
theorem C7_delivery_failure_classification_witness :
    (receive_error defaultService (mkRateLimiter 1 60) 0 pMin idC1 (fun _ => .timeout)).outcome
        = .DeliveryFailed deliveryFailDetail ∧
    (receive_error defaultService (mkRateLimiter 1 60) 0 pMin idC1
        (fun _ => .response 500 true)).outcome = .DeliveryFailed deliveryFailDetail ∧
    (receive_error defaultService (mkRateLimiter 1 60) 0 pMin idC1
        (fun _ => .response 200 false)).outcome = .DeliveryFailed deliveryFailDetail := by
  have h := C7_delivery_failure_classification defaultService (mkRateLimiter 1 60) 0 pMin idC1
    (by decide)
  exact ⟨h.1, h.2.1 500 (by decide) true, h.2.2 200⟩

/-! ## Claim C2 — the test-notification path -/

/-- A limiter whose global key has exhausted its capacity-1 window at
`now = 0`. -/
def rlC2 : RateLimiter := ⟨1, 60, fun k => if k = chars "global" then [0] else []⟩

/-- C2 counterexample: the test operation's synthetic payload maps to the
global key and that key's window is exhausted, yet `test_notification` still
attempts (and here completes) delivery instead of being denied — the test
path never consults the rate limiter. -/
theorem C2_test_ignores_exhausted_window :
    (rlC2.is_allowed 0 (rateKey (test_payload {}))).1 = false ∧
    (test_notification defaultService rlC2 {} idC1 okDelivery).deliveryCalls = 1 ∧
    (test_notification defaultService rlC2 {} idC1 okDelivery).outcome = .Delivered idC1 := by
  refine ⟨by decide, rfl, ?_⟩
  simp [test_notification, send_error_notification, okDelivery]

/-- C2 amended: `test_notification` builds the fixed synthetic record and
follows only the delivery portion of the dispatch path — one error id, one
delivery attempt classified exactly as a normal report's — while bypassing
rate limiting entirely: the limiter state is passed through untouched and
the outcome is never `RateLimited`. -/
theorem C2_test_path_no_rate_limit (svc : TelegramService) (rl : RateLimiter)
    (ts : DateTime) (error_id : List Char) (delivery : List Char → TelegramResponse) :
    (test_notification svc rl ts error_id delivery).limiter = rl ∧
    (test_notification svc rl ts error_id delivery).idsGenerated = 1 ∧
    (test_notification svc rl ts error_id delivery).deliveryCalls = 1 ∧
    (test_notification svc rl ts error_id delivery).outcome
      = (if send_error_notification svc (test_payload ts) error_id delivery
         then .Delivered error_id else .DeliveryFailed testFailDetail) := by
  unfold test_notification
  split <;> simp_all

/-! ## Claim C10 — capacity bound on every stored list -/

theorem applyRLOp_max_requests (rl : RateLimiter) (op : RLOp) :
    (applyRLOp rl op).max_requests = rl.max_requests := by
  cases op with
  | isAllowedOp now key =>
    show (rl.is_allowed now key).2.max_requests = rl.max_requests
    unfold RateLimiter.is_allowed
    by_cases hcond :
        rl.max_requests ≤ ((purgeL rl.window_seconds now (rl.requests key)).length : ℤ) <;>
      simp [hcond]
  | remainingOp now key => rfl
  | resetTimeOp key => rfl

theorem applyRLOp_length_bound (rl : RateLimiter) (op : RLOp)
    (h : ∀ k, ((rl.requests k).length : ℤ) ≤ rl.max_requests) :
    ∀ k, (((applyRLOp rl op).requests k).length : ℤ) ≤ rl.max_requests := by
  intro k
  cases op with
  | isAllowedOp now key =>
    show (((rl.is_allowed now key).2.requests k).length : ℤ) ≤ rl.max_requests
    have hle : ((purgeL rl.window_seconds now (rl.requests k)).length : ℤ)
        ≤ ((rl.requests k).length : ℤ) := by
      exact_mod_cast List.length_filter_le _ _
    unfold RateLimiter.is_allowed
    by_cases hcond :
        rl.max_requests ≤ ((purgeL rl.window_seconds now (rl.requests key)).length : ℤ)
    · by_cases hk : k = key
      · subst hk
        simp only [hcond, if_true, if_pos]
        exact le_trans hle (h k)
      · simp only [hcond, if_true, if_pos, if_neg hk]
        exact h k
    · by_cases hk : k = key
      · subst hk
        simp only [hcond, if_false, if_neg, if_pos, List.length_append, List.length_cons,
          List.length_nil]
        push_cast
        omega
      · simp only [hcond, if_false, if_neg hk, if_neg]
        exact h k
  | remainingOp now key =>
    show (((rl.remaining now key).2.requests k).length : ℤ) ≤ rl.max_requests
    have hle : ((purgeL rl.window_seconds now (rl.requests k)).length : ℤ)
        ≤ ((rl.requests k).length : ℤ) := by
      exact_mod_cast List.length_filter_le _ _
    unfold RateLimiter.remaining
    by_cases hk : k = key
    · subst hk
      simp only [if_pos]
      exact le_trans hle (h k)
    · simp only [if_neg hk]
      exact h k
  | resetTimeOp key => exact h k

theorem runRLOps_length_bound : ∀ (ops : List RLOp) (rl : RateLimiter),
    (∀ k, ((rl.requests k).length : ℤ) ≤ rl.max_requests) →
    ∀ k, (((runRLOps rl ops).requests k).length : ℤ) ≤ rl.max_requests := by
  intro ops
  induction ops with
  | nil => intro rl h k; exact h k
  | cons op ops ih =>
    intro rl h k
    have hstep := applyRLOp_length_bound rl op h
    have hmax := applyRLOp_max_requests rl op
    have := ih (applyRLOp rl op) (by rw [hmax]; exact hstep) k
    rw [hmax] at this
    exact this

/-- C10: starting from the empty limiter with capacity `N ≥ 0`, no sequence
of `is_allowed` / `remaining` / `reset_time` calls ever grows any key's
stored timestamp list past the capacity. -/
theorem C10_stored_lists_bounded_by_capacity (N W : ℤ) (hN : 0 ≤ N)
    (ops : List RLOp) (key : List Char) :
    (((runRLOps (mkRateLimiter N W) ops).requests key).length : ℤ) ≤ N := by
  exact runRLOps_length_bound ops (mkRateLimiter N W) (fun _ => by simpa using hN) key

/-- C10 witness: capacity 2, three admissions attempted plus read-path
calls; the stored list stays within the capacity. -/
theorem C10_stored_lists_bounded_by_capacity_witness :
    (((runRLOps (mkRateLimiter 2 60)
        [.isAllowedOp 0 (chars "k"), .isAllowedOp 0 (chars "k"), .isAllowedOp 0 (chars "k"),
         .remainingOp 0 (chars "k"), .resetTimeOp (chars "k")]).requests
          (chars "k")).length : ℤ) ≤ 2 :=
  C10_stored_lists_bounded_by_capacity 2 60 (by decide)
    [.isAllowedOp 0 (chars "k"), .isAllowedOp 0 (chars "k"), .isAllowedOp 0 (chars "k"),
     .remainingOp 0 (chars "k"), .resetTimeOp (chars "k")] (chars "k")

/-! ## Claim C3 — the sliding-window admission bound -/

/-- Single-key view of one `is_allowed` call: purge, then capacity check,
then append on admission. -/
def listStep (N W : ℤ) (l : List ℤ) (t : ℤ) : Bool × List ℤ :=
  let purged := purgeL W t l
  if N ≤ (purged.length : ℤ) then (false, purged) else (true, purged ++ [t])

/-- Single-key view of a call sequence. -/
def listRun (N W : ℤ) : List ℤ → List ℤ → List (ℤ × Bool) × List ℤ
  | l, [] => ([], l)
  | l, t :: ts =>
      let s := listStep N W l t
      let rest := listRun N W s.2 ts
      ((t, s.1) :: rest.1, rest.2)

/-- The call times that were admitted. -/
def trueTimes (res : List (ℤ × Bool)) : List ℤ :=
  (res.filter (fun r => r.2)).map (fun r => r.1)

theorem is_allowed_fst (rl : RateLimiter) (now : ℤ) (key : List Char) :
    (rl.is_allowed now key).1
      = (listStep rl.max_requests rl.window_seconds (rl.requests key) now).1 := by
  unfold RateLimiter.is_allowed listStep
  by_cases hcond :
      rl.max_requests ≤ ((purgeL rl.window_seconds now (rl.requests key)).length : ℤ) <;>
    simp [hcond]

theorem is_allowed_snd_key (rl : RateLimiter) (now : ℤ) (key : List Char) :
    (rl.is_allowed now key).2.requests key
      = (listStep rl.max_requests rl.window_seconds (rl.requests key) now).2 := by
  unfold RateLimiter.is_allowed listStep
  by_cases hcond :
      rl.max_requests ≤ ((purgeL rl.window_seconds now (rl.requests key)).length : ℤ) <;>
    simp [hcond]

theorem is_allowed_window_seconds (rl : RateLimiter) (now : ℤ) (key : List Char) :
    (rl.is_allowed now key).2.window_seconds = rl.window_seconds := by
  unfold RateLimiter.is_allowed
  by_cases hcond :
      rl.max_requests ≤ ((purgeL rl.window_seconds now (rl.requests key)).length : ℤ) <;>
    simp [hcond]

theorem is_allowed_max_requests (rl : RateLimiter) (now : ℤ) (key : List Char) :
    (rl.is_allowed now key).2.max_requests = rl.max_requests := by
  unfold RateLimiter.is_allowed
  by_cases hcond :
      rl.max_requests ≤ ((purgeL rl.window_seconds now (rl.requests key)).length : ℤ) <;>
    simp [hcond]

theorem runAllowed_fst (key : List Char) : ∀ (ts : List ℤ) (rl : RateLimiter),
    (runAllowed rl key ts).1
      = (listRun rl.max_requests rl.window_seconds (rl.requests key) ts).1 := by
  intro ts
  induction ts with
  | nil => intro rl; rfl
  | cons t ts ih =>
    intro rl
    show (t, (rl.is_allowed t key).1) :: (runAllowed (rl.is_allowed t key).2 key ts).1 = _
    rw [ih (rl.is_allowed t key).2, is_allowed_fst,
      is_allowed_max_requests, is_allowed_window_seconds, is_allowed_snd_key]
    rfl

theorem purge_filter (W t c : ℤ) (P : List ℤ) (hct : c ≤ t - W) :
    purgeL W t (P.filter (fun x => decide (c < x)))
      = P.filter (fun x => decide (t - W < x)) := by
  unfold purgeL
  rw [List.filter_filter]
  apply List.filter_congr
  intro x _
  by_cases hx : t - W < x
  · have hcx : c < x := lt_of_le_of_lt hct hx
    simp [hx, hcx]
  · simp [hx]

/-- Core admission invariant: in a run over nondecreasing call times started
from a window-filtered state, every admitted call `v` saw fewer than `N`
window-relevant timestamps (prior state `P` plus the admissions `T₁` made
before it). -/
theorem listRun_admission (N W : ℤ) (hW : 0 < W) :
    ∀ (ts : List ℤ), ts.Sorted (· ≤ ·) →
    ∀ (P : List ℤ) (c : ℤ),
      (∀ t ∈ ts, c ≤ t - W) →
      (∀ x ∈ P, ∀ t ∈ ts, x ≤ t) →
      ∀ T₁ v T₂,
        trueTimes (listRun N W (P.filter (fun x => decide (c < x))) ts).1
          = T₁ ++ v :: T₂ →
        (((P ++ T₁).filter (fun x => decide (v - W < x))).length : ℤ) < N := by
  intro ts
  induction ts with
  | nil =>
    intro _ P c _ _ T₁ v T₂ h
    simp [listRun, trueTimes] at h
  | cons t ts ih =>
    intro hsort P c hc hP T₁ v T₂ h
    have hct : c ≤ t - W := hc t (by simp)
    have hts_ge : ∀ t' ∈ ts, t ≤ t' := (List.sorted_cons.mp hsort).1
    have hsort' : ts.Sorted (· ≤ ·) := (List.sorted_cons.mp hsort).2
    have hc' : ∀ t' ∈ ts, t - W ≤ t' - W := fun t' ht' => by
      have := hts_ge t' ht'
      omega
    have hpurge := purge_filter W t c P hct
    by_cases hcond :
        N ≤ ((P.filter (fun x => decide (t - W < x))).length : ℤ)
    · -- denied: state becomes the purged list, no admission recorded
      have hrun : (listRun N W (P.filter (fun x => decide (c < x))) (t :: ts)).1
          = (t, false) ::
            (listRun N W (P.filter (fun x => decide (t - W < x))) ts).1 := by
        show ((t, (listStep N W _ t).1) :: _) = _
        rw [show listStep N W (P.filter (fun x => decide (c < x))) t
            = (false, P.filter (fun x => decide (t - W < x))) by
          unfold listStep
          rw [hpurge]
          rw [if_pos hcond]]
      rw [hrun] at h
      have h' : trueTimes (listRun N W (P.filter (fun x => decide (t - W < x))) ts).1
          = T₁ ++ v :: T₂ := by
        simpa [trueTimes] using h
      exact ih hsort' P (t - W) hc'
        (fun x hx t' ht' => hP x hx t' (by simp [ht'])) T₁ v T₂ h'
    · -- admitted: `t` is appended and recorded
      have hstate : P.filter (fun x => decide (t - W < x)) ++ [t]
          = (P ++ [t]).filter (fun x => decide (t - W < x)) := by
        rw [List.filter_append]
        simp [show t - W < t by omega]
      have hrun : (listRun N W (P.filter (fun x => decide (c < x))) (t :: ts)).1
          = (t, true) ::
            (listRun N W ((P ++ [t]).filter (fun x => decide (t - W < x))) ts).1 := by
        show ((t, (listStep N W _ t).1) :: _) = _
        rw [show listStep N W (P.filter (fun x => decide (c < x))) t
            = (true, (P ++ [t]).filter (fun x => decide (t - W < x))) by
          unfold listStep
          rw [hpurge]
          rw [if_neg hcond, hstate]]
      rw [hrun] at h
      have h' : t :: trueTimes
          (listRun N W ((P ++ [t]).filter (fun x => decide (t - W < x))) ts).1
          = T₁ ++ v :: T₂ := by
        simpa [trueTimes] using h
      have hP' : ∀ x ∈ P ++ [t], ∀ t' ∈ ts, x ≤ t' := by
        intro x hx t' ht'
        rcases List.mem_append.mp hx with h1 | h2
        · exact hP x h1 t' (by simp [ht'])
        · simp at h2
          subst h2
          exact hts_ge t' ht'
      cases T₁ with
      | nil =>
        -- v = t: the admission check itself
        simp at h'
        obtain ⟨hv, -⟩ := h'
        subst hv
        simpa using lt_of_not_le hcond
      | cons t' T₁' =>
        rw [List.cons_append] at h'
        have ht' : t' = t := by
          have := congrArg (fun l => l.head?) h'
          simpa using this.symm
        subst ht'
        have h'' : trueTimes
            (listRun N W ((P ++ [t']).filter (fun x => decide (t' - W < x))) ts).1
            = T₁' ++ v :: T₂ := by
          have := congrArg (fun l => l.tail) h'
          simpa using this
        have := ih hsort' (P ++ [t']) (t' - W) hc' hP' T₁' v T₂ h''
        rw [List.append_assoc] at this
        simpa using this

theorem exists_last_satisfying {α : Type} (p : α → Bool) :
    ∀ (T : List α), T.filter p ≠ [] →
      ∃ T₁ v T₂, T = T₁ ++ v :: T₂ ∧ p v = true ∧ ∀ x ∈ T₂, p x = false := by
  intro T
  induction T using List.reverseRecOn with
  | nil => simp
  | append_singleton T a ih =>
    intro h
    by_cases ha : p a = true
    · exact ⟨T, a, [], rfl, ha, by simp⟩
    · have hf : T.filter p ≠ [] := by
        rw [List.filter_append] at h
        simpa [List.filter_singleton, ha] using h
      obtain ⟨T₁, v, T₂, hT, hv, hT₂⟩ := ih hf
      refine ⟨T₁, v, T₂ ++ [a], by rw [hT]; simp, hv, ?_⟩
      intro x hx
      rcases List.mem_append.mp hx with h1 | h2
      · exact hT₂ x h1
      · simp at h2
        subst h2
        simpa using ha

theorem filter_length_last {α : Type} (p : α → Bool) (T₁ T₂ : List α) (v : α)
    (hv : p v = true) (hT₂ : ∀ x ∈ T₂, p x = false) :
    ((T₁ ++ v :: T₂).filter p).length = (T₁.filter p).length + 1 := by
  rw [List.filter_append]
  have h2 : T₂.filter p = [] := List.filter_eq_nil_iff.mpr (by
    intro x hx
    simp [hT₂ x hx])
  simp [List.filter_cons, hv, h2]

set_option maxRecDepth 2000 in
/-- C3: over any nondecreasing sequence of `is_allowed` call times on one
key (capacity `N ≥ 0`, window `W > 0`, fresh limiter), the number of
admitted calls whose times lie in any trailing window `(s − W, s]` never
exceeds `N`; and the spec's concrete example — `N = 2`, `W = 60`, three
calls at `t = 0` — yields `true, true, false` with `remaining = 0`. -/
theorem C3_sliding_window_bound (N W : ℤ) (hN : 0 ≤ N) (hW : 0 < W)
    (key : List Char) (ts : List ℤ) (hsort : ts.Sorted (· ≤ ·)) (s : ℤ) :
    ((((runAllowed (mkRateLimiter N W) key ts).1.filter
        (fun r => r.2 && (decide (s - W < r.1) && decide (r.1 ≤ s)))).length : ℤ) ≤ N) ∧
    (runAllowed (mkRateLimiter 2 60) (chars "k") [0, 0, 0]).1
        = [(0, true), (0, true), (0, false)] ∧
    ((runAllowed (mkRateLimiter 2 60) (chars "k") [0, 0, 0]).2.remaining 0 (chars "k")).1
        = 0 := by
  refine ⟨?_, by decide, by decide⟩
  rw [runAllowed_fst]
  show (((listRun N W _ ts).1.filter _).length : ℤ) ≤ N
  set res := (listRun N W ((mkRateLimiter N W).requests key) ts).1 with hres
  set pInt : ℤ → Bool := fun x => decide (s - W < x) && decide (x ≤ s) with hpInt
  have hcount : (res.filter (fun r => r.2 && (decide (s - W < r.1) && decide (r.1 ≤ s)))).length
      = ((trueTimes res).filter pInt).length := by
    unfold trueTimes
    rw [List.filter_map, List.length_map, List.filter_filter]
    congr 1
    apply List.filter_congr
    intro r _
    simp [hpInt, Function.comp, Bool.and_comm]
  rw [hcount]
  by_cases hF : (trueTimes res).filter pInt = []
  · rw [hF]
    simpa using hN
  · obtain ⟨T₁, v, T₂, hT, hv, hT₂⟩ := exists_last_satisfying pInt (trueTimes res) hF
    have hvs : v ≤ s := by
      have := hv
      simp [hpInt] at this
      exact this.2
    cases hts : ts with
    | nil =>
      rw [hts] at hres
      rw [hres] at hT
      simp [listRun, trueTimes] at hT
    | cons t₀ ts' =>
      have hadm : ((([] : List ℤ) ++ T₁).filter (fun x => decide (v - W < x))).length
          < N := by
        apply listRun_admission N W hW ts (by rw [hts] at hsort ⊢; exact hsort)
          [] (t₀ - W) ?_ (by simp) T₁ v T₂ ?_
        · intro t ht
          rw [hts] at ht hsort
          rcases List.mem_cons.mp ht with h1 | h2
          · omega
          · have := (List.sorted_cons.mp hsort).1 t h2
            omega
        · show trueTimes (listRun N W (List.filter _ []) ts).1 = T₁ ++ v :: T₂
          simpa [hres] using hT
      have hmono : (T₁.filter pInt).length
          ≤ (T₁.filter (fun x => decide (v - W < x))).length := by
        simp only [← List.countP_eq_length_filter]
        apply List.countP_mono_left
        intro x _ hx
        simp only [hpInt, Bool.and_eq_true, decide_eq_true_eq] at hx
        simp only [decide_eq_true_eq]
        omega
      rw [hT, filter_length_last pInt T₁ T₂ v hv hT₂]
      simp only [List.nil_append] at hadm
      push_cast
      omega

/-- C3 witness: the bound instantiated at the spec's example
(`N = 2`, `W = 60`, calls at `t = 0, 0, 0`, trailing window ending at 0). -/
theorem C3_sliding_window_bound_witness :
    (0 : ℤ) ≤ 2 ∧ (0 : ℤ) < 60 ∧
    ((((runAllowed (mkRateLimiter 2 60) (chars "k") [0, 0, 0]).1.filter
        (fun r => r.2 && (decide ((0 : ℤ) - 60 < r.1) && decide (r.1 ≤ 0)))).length : ℤ) ≤ 2) :=
  ⟨by decide, by decide,
   (C3_sliding_window_bound 2 60 (by decide) (by decide) (chars "k") [0, 0, 0]
     (by decide) 0).1⟩

/-! ## Claim C5 — truncation vs. the fixed header/footer -/

/-- A payload whose assembled message (4235 chars) pushes the footer beyond
the 4080-character final cut: maximal message plus a short stacktrace. -/
def pC5 : ErrorPayload :=
  { error_message := List.replicate 4000 'a'
    stacktrace := some (List.replicate 100 'x') }

set_option maxRecDepth 40000 in
theorem pC5_assemble_length :
    (assembleMessage defaultService pC5 idC1).length = 4235 :=
  (lenIs_iff _ _).mp (by decide)

set_option maxRecDepth 40000 in
/-- C5 counterexample: the timestamp footer line is part of the assembled
message, but the final whole-message cut removes it entirely from the
formatted output — truncation does remove characters of the fixed footer. -/
theorem C5_final_cut_removes_footer :
    tsLine pC5 <:+: assembleMessage defaultService pC5 idC1 ∧
      ¬ tsLine pC5 <:+: defaultService.format_message pC5 idC1 := by
  have hfmt := format_message_overflow defaultService pC5 idC1
    (by rw [pC5_assemble_length]; norm_num)
  constructor
  · exact (containsSeq2_iff _ _).mp (by decide)
  · intro hinf
    have hfalse : containsSeq2 (tsLine pC5) (defaultService.format_message pC5 idC1)
        = false := by
      rw [hfmt]
      decide
    rw [(containsSeq2_iff _ _).mpr hinf] at hfalse
    simp at hfalse

theorem severity_label_length (sev : ErrorSeverity) :
    (SEVERITY_LABEL sev).length ≤ 8 := by
  cases sev <;> decide

theorem severity_emoji_length (sev : ErrorSeverity) :
    (SEVERITY_EMOJI sev).length = 1 := by
  cases sev <;> decide

/-- C5 amended: the header line is always an intact prefix of the assembled
message and the timestamp/fingerprint footer an intact suffix — so the
metadata and stacktrace ceiling cuts (which act before assembly, on their
own block content only) never split them; when no final cut fires the
formatted output is the assembled message itself (footer intact), and the
header additionally survives the final cut for any error id of length at
most 4000; but the final cut may remove or split the footer. -/
theorem C5_header_footer_placement (svc : TelegramService) (p : ErrorPayload)
    (error_id : List Char) :
    (headerLine p error_id ++ chars "\n") <+: assembleMessage svc p error_id ∧
    List.intercalate (chars "\n") ([tsLine p] ++ fingerprintParts p)
        <:+ assembleMessage svc p error_id ∧
    ((assembleMessage svc p error_id).length ≤ 4096 →
      svc.format_message p error_id = assembleMessage svc p error_id) ∧
    (error_id.length ≤ 4000 →
      (headerLine p error_id ++ chars "\n") <+: svc.format_message p error_id) := by
  have hassemble : assembleMessage svc p error_id
      = headerLine p error_id ++ (chars "\n"
          ++ List.intercalate (chars "\n") ([] :: ((chars "<b>Message:</b> "
            ++ pyEscape p.error_message) :: (typeParts p ++ codeParts p ++ locationParts p
          ++ [[]] ++ appParts p ++ contextParts p ++ userParts p ++ deviceParts p
          ++ tagsParts p ++ metadataParts svc p ++ stacktraceParts svc p
          ++ [tsLine p] ++ fingerprintParts p)))) := by
    unfold assembleMessage partsOf
    rw [intercalate_cons₂]
    rfl
  have hpre : (headerLine p error_id ++ chars "\n") <+: assembleMessage svc p error_id := by
    rw [hassemble, ← List.append_assoc]
    exact List.prefix_append _ _
  have hsuf : List.intercalate (chars "\n") ([tsLine p] ++ fingerprintParts p)
      <:+ assembleMessage svc p error_id := by
    unfold assembleMessage partsOf
    have hsplit :
        [headerLine p error_id, []] ++ [chars "<b>Message:</b> " ++ pyEscape p.error_message]
          ++ typeParts p ++ codeParts p ++ locationParts p ++ [[]] ++ appParts p
          ++ contextParts p ++ userParts p ++ deviceParts p ++ tagsParts p
          ++ metadataParts svc p ++ stacktraceParts svc p ++ [tsLine p] ++ fingerprintParts p
        = ([headerLine p error_id, []] ++ [chars "<b>Message:</b> " ++ pyEscape p.error_message]
          ++ typeParts p ++ codeParts p ++ locationParts p ++ [[]] ++ appParts p
          ++ contextParts p ++ userParts p ++ deviceParts p ++ tagsParts p
          ++ metadataParts svc p ++ stacktraceParts svc p)
          ++ ([tsLine p] ++ fingerprintParts p) := by
      simp [List.append_assoc]
    rw [hsplit]
    exact intercalate_suffix_of_append (chars "\n") _ _ (by simp)
  refine ⟨hpre, hsuf, fun hle => format_message_no_overflow svc p error_id hle, fun hid => ?_⟩
  by_cases hlen : (assembleMessage svc p error_id).length ≤ 4096
  · rw [format_message_no_overflow svc p error_id hlen]
    exact hpre
  · rw [format_message_overflow svc p error_id (by omega)]
    have hhdr : (headerLine p error_id ++ chars "\n").length ≤ 4080 := by
      have h1 := severity_label_length p.severity
      have h2 := severity_emoji_length p.severity
      simp only [headerLine, List.length_append]
      simp only [chars, String.length_data] at h1 h2 ⊢
      simp [h2]
      omega
    have : (headerLine p error_id ++ chars "\n")
        <+: (assembleMessage svc p error_id).take 4080 :=
      List.prefix_take_iff.mpr ⟨hpre, hhdr⟩
    exact this.trans (List.prefix_append _ _)

/-- C5 witness: the amended placement theorem applied to a small payload —
no final cut fires, and the header prefix survives in the output. -/
theorem C5_header_footer_placement_witness :
    defaultService.format_message pMin idC1 = assembleMessage defaultService pMin idC1 ∧
      (headerLine pMin idC1 ++ chars "\n") <+: defaultService.format_message pMin idC1 :=
  ⟨(C5_header_footer_placement defaultService pMin idC1).2.2.1 (by decide),
   (C5_header_footer_placement defaultService pMin idC1).2.2.2 (by decide)⟩

/-! ## Claim C9 — escaping of markup-significant characters

`htmlOkAux` scans a rendered message: every `<` must open one of the
formatter's structural tags (`<b>`, `</b>`, `<code>`, `</code>`, `<i>`,
`</i>`, `<pre>`, `</pre>`), every `>` must close one (its predecessor is
`b`, `e` or `i`), and every `&` must start one of the three escape
entities `&amp;`, `&lt;`, `&gt;` produced by `_escape`.  A free-text
`&`/`<`/`>` that reached the output unescaped, or an escape entity split by
a truncation cut, falsifies the predicate. -/

/-- Does the text after a `<` begin one of the structural tags? -/
def tagAhead (r : List Char) : Bool :=
  (chars "b>").isPrefixOf r || (chars "/b>").isPrefixOf r
    || (chars "code>").isPrefixOf r || (chars "/code>").isPrefixOf r
    || (chars "i>").isPrefixOf r || (chars "/i>").isPrefixOf r
    || (chars "pre>").isPrefixOf r || (chars "/pre>").isPrefixOf r

/-- Does the text after a `&` begin one of the escape entities? -/
def entAhead (r : List Char) : Bool :=
  (chars "amp;").isPrefixOf r || (chars "lt;").isPrefixOf r
    || (chars "gt;").isPrefixOf r

/-- Scan with one character of left context (`prev`). -/
def htmlOkAux : Char → List Char → Bool
  | _, [] => true
  | _, '<' :: rest => tagAhead rest && htmlOkAux '<' rest
  | prev, '>' :: rest => (prev == 'b' || prev == 'e' || prev == 'i') && htmlOkAux '>' rest
  | _, '&' :: rest => entAhead rest && htmlOkAux '&' rest
  | _, c :: rest => htmlOkAux c rest

/-- Well-formedness of a whole rendered message. -/
def htmlOk (l : List Char) : Bool := htmlOkAux ' ' l

theorem htmlOkAux_other (prev c : Char) (rest : List Char)
    (h1 : c ≠ '<') (h2 : c ≠ '>') (h3 : c ≠ '&') :
    htmlOkAux prev (c :: rest) = htmlOkAux c rest := by
  simp [htmlOkAux, h1, h2, h3]

theorem tagAhead_append (r b : List Char) (h : tagAhead r = true) :
    tagAhead (r ++ b) = true := by
  simp only [tagAhead, Bool.or_eq_true, List.isPrefixOf_iff_prefix] at h ⊢
  rcases h with ((((((h | h) | h) | h) | h) | h) | h) | h <;>
    simp [h.trans (List.prefix_append r b)]

theorem entAhead_append (r b : List Char) (h : entAhead r = true) :
    entAhead (r ++ b) = true := by
  simp only [entAhead, Bool.or_eq_true, List.isPrefixOf_iff_prefix] at h ⊢
  rcases h with (h | h) | h <;>
    simp [h.trans (List.prefix_append r b)]

theorem htmlOkAux_append : ∀ (a : List Char) (prev : Char) (b : List Char),
    htmlOkAux prev a = true → htmlOkAux (a.getLastD prev) b = true →
    htmlOkAux prev (a ++ b) = true := by
  intro a
  induction a with
  | nil => intro prev b _ hb; simpa using hb
  | cons c a ih =>
    intro prev b ha hb
    rw [List.getLastD_cons] at hb
    rw [List.cons_append]
    by_cases h1 : c = '<'
    · subst h1
      rw [show htmlOkAux prev ('<' :: a) = (tagAhead a && htmlOkAux '<' a) from rfl]
        at ha
      rw [show htmlOkAux prev ('<' :: (a ++ b))
          = (tagAhead (a ++ b) && htmlOkAux '<' (a ++ b)) from rfl]
      rw [Bool.and_eq_true] at ha
      rw [Bool.and_eq_true]
      exact ⟨tagAhead_append a b ha.1, ih '<' b ha.2 hb⟩
    · by_cases h2 : c = '>'
      · subst h2
        rw [show htmlOkAux prev ('>' :: a)
            = ((prev == 'b' || prev == 'e' || prev == 'i') && htmlOkAux '>' a) from rfl]
          at ha
        rw [show htmlOkAux prev ('>' :: (a ++ b))
            = ((prev == 'b' || prev == 'e' || prev == 'i')
              && htmlOkAux '>' (a ++ b)) from rfl]
        rw [Bool.and_eq_true] at ha
        rw [Bool.and_eq_true]
        exact ⟨ha.1, ih '>' b ha.2 hb⟩
      · by_cases h3 : c = '&'
        · subst h3
          rw [show htmlOkAux prev ('&' :: a) = (entAhead a && htmlOkAux '&' a) from rfl]
            at ha
          rw [show htmlOkAux prev ('&' :: (a ++ b))
              = (entAhead (a ++ b) && htmlOkAux '&' (a ++ b)) from rfl]
          rw [Bool.and_eq_true] at ha
          rw [Bool.and_eq_true]
          exact ⟨entAhead_append a b ha.1, ih '&' b ha.2 hb⟩
        · rw [htmlOkAux_other prev c a h1 h2 h3] at ha
          rw [htmlOkAux_other prev c (a ++ b) h1 h2 h3]
          exact ih c b ha hb

/-- A chunk that scans well-formed regardless of left context. -/
def chunkOk (l : List Char) : Prop := ∀ prev, htmlOkAux prev l = true

theorem chunkOk_nil : chunkOk [] := fun _ => rfl

theorem htmlOkAux_prev_irrelevant (p q c : Char) (l : List Char) (hc : c ≠ '>') :
    htmlOkAux p (c :: l) = htmlOkAux q (c :: l) := by
  by_cases h1 : c = '<'
  · subst h1; rfl
  · by_cases h3 : c = '&'
    · subst h3; rfl
    · rw [htmlOkAux_other p c l h1 hc h3, htmlOkAux_other q c l h1 hc h3]

theorem chunkOk_of_head (l : List Char) (h : htmlOkAux ' ' l = true)
    (hh : l.head? ≠ some '>') : chunkOk l := by
  intro prev
  cases l with
  | nil => rfl
  | cons c rest =>
    have hc : c ≠ '>' := by
      intro hc
      subst hc
      simp at hh
    rw [htmlOkAux_prev_irrelevant prev ' ' c rest hc]
    exact h

theorem chunkOk_head_ne (l : List Char) (h : chunkOk l) : l.head? ≠ some '>' := by
  cases l with
  | nil => simp
  | cons c rest =>
    intro hc
    simp at hc
    subst hc
    have := h 'x'
    rw [show htmlOkAux 'x' ('>' :: rest)
        = (('x' == 'b' || 'x' == 'e' || 'x' == 'i') && htmlOkAux '>' rest) from rfl] at this
    simp at this

theorem chunkOk_append {a b : List Char} (ha : chunkOk a) (hb : chunkOk b) :
    chunkOk (a ++ b) :=
  fun prev => htmlOkAux_append a prev b (ha prev) (hb _)

theorem chunkOk₃ {a b c : List Char} (ha : chunkOk a) (hb : chunkOk b) (hc : chunkOk c) :
    chunkOk (a ++ b ++ c) :=
  chunkOk_append (chunkOk_append ha hb) hc

theorem chunkOk_intercalate (sep : List Char) (hsep : chunkOk sep) :
    ∀ (parts : List (List Char)), (∀ part ∈ parts, chunkOk part) →
      chunkOk (List.intercalate sep parts) := by
  intro parts
  induction parts with
  | nil => intro _; simpa [List.intercalate] using chunkOk_nil
  | cons p ps ih =>
    intro h
    cases ps with
    | nil => simpa [List.intercalate, List.intersperse] using h p (by simp)
    | cons q ps' =>
      rw [intercalate_cons₂]
      exact chunkOk_append (h p (by simp))
        (chunkOk_append hsep (ih (fun part hpart => h part (by simp [hpart]))))

/-- Characters that need no escaping and open no tag. -/
def plainChars (l : List Char) : Prop := ∀ c ∈ l, c ≠ '<' ∧ c ≠ '>' ∧ c ≠ '&'

theorem plainChars_append {a b : List Char} (ha : plainChars a) (hb : plainChars b) :
    plainChars (a ++ b) := by
  intro c hc
  rcases List.mem_append.mp hc with h | h
  · exact ha c h
  · exact hb c h

theorem plainChars_of_all (l : List Char)
    (h : l.all (fun c => !(c == '<' || c == '>' || c == '&')) = true) : plainChars l := by
  intro c hc
  have := List.all_eq_true.mp h c hc
  simp at this
  exact ⟨this.1.1, this.1.2, this.2⟩

theorem chunkOk_plain {l : List Char} (h : plainChars l) : chunkOk l := by
  induction l with
  | nil => exact chunkOk_nil
  | cons c rest ih =>
    intro prev
    obtain ⟨h1, h2, h3⟩ := h c (by simp)
    rw [htmlOkAux_other prev c rest h1 h2 h3]
    exact ih (fun x hx => h x (by simp [hx])) c

/-- Action of `_escape` on one character. -/
def escChar (c : Char) : List Char :=
  if c = '&' then chars "&amp;"
  else if c = '<' then chars "&lt;"
  else if c = '>' then chars "&gt;"
  else [c]

theorem replaceChar_cons (c : Char) (r : List Char) (x : Char) (s : List Char) :
    replaceChar c r (x :: s) = (if x = c then r else [x]) ++ replaceChar c r s := by
  simp [replaceChar]

theorem replaceChar_append (c : Char) (r : List Char) (a b : List Char) :
    replaceChar c r (a ++ b) = replaceChar c r a ++ replaceChar c r b := by
  simp [replaceChar]

theorem pyEscape_cons (c : Char) (s : List Char) :
    pyEscape (c :: s) = escChar c ++ pyEscape s := by
  unfold pyEscape
  rw [replaceChar_cons '&', replaceChar_append '<', replaceChar_append '>']
  congr 1
  unfold escChar
  by_cases h1 : c = '&'
  · subst h1
    rw [if_pos rfl, if_pos rfl]
    decide
  · by_cases h2 : c = '<'
    · subst h2
      rw [if_neg h1, if_neg h1, if_pos rfl]
      decide
    · by_cases h3 : c = '>'
      · subst h3
        rw [if_neg h1, if_neg h1, if_neg h2, if_pos rfl]
        decide
      · rw [if_neg h1, if_neg h1, if_neg h2, if_neg h3]
        simp [replaceChar, h2, h3]

theorem chunkOk_escChar (c : Char) : chunkOk (escChar c) := by
  unfold escChar
  by_cases h1 : c = '&'
  · simp only [if_pos h1]
    exact chunkOk_of_head _ (by decide) (by decide)
  · by_cases h2 : c = '<'
    · simp only [if_neg h1, if_pos h2]
      exact chunkOk_of_head _ (by decide) (by decide)
    · by_cases h3 : c = '>'
      · simp only [if_neg h1, if_neg h2, if_pos h3]
        exact chunkOk_of_head _ (by decide) (by decide)
      · simp only [if_neg h1, if_neg h2, if_neg h3]
        exact chunkOk_plain (by simp [plainChars, h1, h2, h3])

theorem chunkOk_esc (s : List Char) : chunkOk (pyEscape s) := by
  induction s with
  | nil => exact chunkOk_nil
  | cons c s ih =>
    rw [pyEscape_cons]
    exact chunkOk_append (chunkOk_escChar c) ih

theorem digitChar_plain (n : ℕ) :
    digitChar n ≠ '<' ∧ digitChar n ≠ '>' ∧ digitChar n ≠ '&' := by
  unfold digitChar
  split_ifs <;> exact ⟨by decide, by decide, by decide⟩

theorem natToCharsAux_plain : ∀ (fuel n : ℕ), plainChars (natToCharsAux fuel n) := by
  intro fuel
  induction fuel with
  | zero => intro n c hc; simp [natToCharsAux] at hc
  | succ fuel ih =>
    intro n c hc
    unfold natToCharsAux at hc
    split at hc
    · simp at hc
      subst hc
      exact digitChar_plain n
    · rcases List.mem_append.mp hc with h | h
      · exact ih (n / 10) c h
      · simp at h
        subst h
        exact digitChar_plain (n % 10)

theorem natToChars_plain (n : ℕ) : plainChars (natToChars n) :=
  natToCharsAux_plain (n + 1) n

theorem intToChars_plain (i : ℤ) : plainChars (intToChars i) := by
  unfold intToChars
  split
  · intro c hc
    rcases List.mem_cons.mp hc with h | h
    · subst h; exact ⟨by decide, by decide, by decide⟩
    · exact natToChars_plain _ c h
  · exact natToChars_plain _

theorem format1f_plain (q : ℚ) : plainChars (format1f q) := by
  unfold format1f
  refine plainChars_append (intToChars_plain _) ?_
  intro c hc
  rcases List.mem_cons.mp hc with h | h
  · subst h; exact ⟨by decide, by decide, by decide⟩
  · exact natToChars_plain _ c h

theorem pad2_plain (n : ℕ) : plainChars (pad2 n) := by
  unfold pad2
  split
  · intro c hc
    rcases List.mem_cons.mp hc with h | h
    · subst h; exact ⟨by decide, by decide, by decide⟩
    · exact natToChars_plain _ c h
  · exact natToChars_plain _

theorem pad4_plain (n : ℕ) : plainChars (pad4 n) := by
  unfold pad4
  split_ifs <;>
    first
      | exact natToChars_plain _
      | exact plainChars_append (by intro c hc; fin_cases hc <;> exact ⟨by decide, by decide, by decide⟩)
          (natToChars_plain _)

theorem strftimeTs_plain (t : DateTime) : plainChars (strftimeTs t) := by
  unfold strftimeTs
  repeat' apply plainChars_append
  all_goals
    first
      | exact pad4_plain _
      | exact pad2_plain _
      | exact plainChars_of_all _ (by decide)

theorem mem_ite_singleton {α : Type} {c : Prop} [Decidable c] {x y : α}
    (h : y ∈ (if c then [x] else [])) : y = x := by
  split at h <;> simp_all

theorem mem_ite_list {α : Type} {c : Prop} [Decidable c] {L : List α} {y : α}
    (h : y ∈ (if c then L else [])) : y ∈ L := by
  split at h <;> simp_all

theorem chunkOk_emoji (sev : ErrorSeverity) : chunkOk (SEVERITY_EMOJI sev) := by
  cases sev <;> exact chunkOk_of_head _ (by decide) (by decide)

theorem chunkOk_label (sev : ErrorSeverity) : chunkOk (SEVERITY_LABEL sev) := by
  cases sev <;> exact chunkOk_of_head _ (by decide) (by decide)

theorem chunkOk_headerLine (p : ErrorPayload) (error_id : List Char)
    (hid : plainChars error_id) : chunkOk (headerLine p error_id) := by
  unfold headerLine
  refine chunkOk_append (chunkOk_append (chunkOk_append (chunkOk_append
    (chunkOk_append (chunkOk_emoji _) ?_) (chunkOk_label _)) ?_)
      (chunkOk_plain hid)) ?_ <;>
    exact chunkOk_of_head _ (by decide) (by decide)

theorem typeParts_ok (p : ErrorPayload) : ∀ part ∈ typeParts p, chunkOk part := by
  intro part hpart
  unfold typeParts at hpart
  rw [mem_ite_singleton hpart]
  exact chunkOk₃ (chunkOk_of_head _ (by decide) (by decide)) (chunkOk_esc _)
    (chunkOk_of_head _ (by decide) (by decide))

theorem codeParts_ok (p : ErrorPayload) : ∀ part ∈ codeParts p, chunkOk part := by
  intro part hpart
  unfold codeParts at hpart
  rw [mem_ite_singleton hpart]
  exact chunkOk₃ (chunkOk_of_head _ (by decide) (by decide)) (chunkOk_esc _)
    (chunkOk_of_head _ (by decide) (by decide))

theorem locationParts_ok (p : ErrorPayload) : ∀ part ∈ locationParts p, chunkOk part := by
  intro part hpart
  unfold locationParts at hpart
  rw [mem_ite_singleton hpart]
  exact chunkOk₃ (chunkOk_of_head _ (by decide) (by decide)) (chunkOk_esc _)
    (chunkOk_of_head _ (by decide) (by decide))

theorem appParts_ok (p : ErrorPayload) : ∀ part ∈ appParts p, chunkOk part := by
  intro part hpart
  unfold appParts at hpart
  have hpart' := mem_ite_list hpart
  rcases List.mem_cons.mp hpart' with h | h
  · subst h; exact chunkOk_of_head _ (by decide) (by decide)
  · rcases List.mem_append.mp h with h | h
    · simp only [List.append_assoc, List.mem_append] at h
      rcases h with h | h | h | h | h <;>
        · rw [mem_ite_singleton h]
          exact chunkOk_append (chunkOk_of_head _ (by decide) (by decide)) (chunkOk_esc _)
    · simp at h
      subst h
      exact chunkOk_nil

theorem contextParts_ok (p : ErrorPayload) : ∀ part ∈ contextParts p, chunkOk part := by
  intro part hpart
  unfold contextParts at hpart
  split at hpart
  · simp at hpart
  · rename_i ctx heq
    have hpart' := mem_ite_list hpart
    rcases List.mem_cons.mp hpart' with h | h
    · subst h; exact chunkOk_of_head _ (by decide) (by decide)
    · rcases List.mem_append.mp h with h | h
      · rcases List.mem_append.mp h with h | h
        · rcases List.mem_append.mp h with h | h
          · by_cases hmu : (truthy ctx.request_method && truthy ctx.request_url) = true
            · rw [if_pos hmu] at h
              simp only [List.mem_singleton] at h
              subst h
              exact chunkOk_append (chunkOk₃ (chunkOk_of_head _ (by decide) (by decide))
                (chunkOk_esc _) (chunkOk_of_head _ (by decide) (by decide))) (chunkOk_esc _)
            · rw [if_neg hmu] at h
              by_cases hu : truthy ctx.request_url = true
              · rw [if_pos hu] at h
                simp only [List.mem_singleton] at h
                subst h
                exact chunkOk_append (chunkOk_of_head _ (by decide) (by decide))
                  (chunkOk_esc _)
              · rw [if_neg hu] at h
                simp at h
          · split at h
            · simp only [List.mem_singleton] at h
              subst h
              exact chunkOk_append (chunkOk_of_head _ (by decide) (by decide))
                (chunkOk_plain (intToChars_plain _))
            · simp at h
        · rw [mem_ite_singleton h]
          exact chunkOk_append (chunkOk_of_head _ (by decide) (by decide)) (chunkOk_esc _)
      · simp at h
        subst h
        exact chunkOk_nil

theorem userParts_ok (p : ErrorPayload) : ∀ part ∈ userParts p, chunkOk part := by
  intro part hpart
  unfold userParts at hpart
  split at hpart
  · simp at hpart
  · have hpart' := mem_ite_list hpart
    rcases List.mem_cons.mp hpart' with h | h
    · subst h; exact chunkOk_of_head _ (by decide) (by decide)
    · rcases List.mem_append.mp h with h | h
      · simp only [List.append_assoc, List.mem_append] at h
        rcases h with h | h | h | h | h
        · rw [mem_ite_singleton h]
          exact chunkOk_append (chunkOk_of_head _ (by decide) (by decide))
            (chunkOk_append (chunkOk_esc _) (chunkOk_of_head _ (by decide) (by decide)))
        · rw [mem_ite_singleton h]
          exact chunkOk_append (chunkOk_of_head _ (by decide) (by decide)) (chunkOk_esc _)
        · rw [mem_ite_singleton h]
          exact chunkOk_append (chunkOk_of_head _ (by decide) (by decide)) (chunkOk_esc _)
        · rw [mem_ite_singleton h]
          exact chunkOk_append (chunkOk_of_head _ (by decide) (by decide))
            (chunkOk_append (chunkOk_esc _) (chunkOk_of_head _ (by decide) (by decide)))
        · rw [mem_ite_singleton h]
          exact chunkOk_append (chunkOk_of_head _ (by decide) (by decide))
            (chunkOk_append (chunkOk_esc _) (chunkOk_of_head _ (by decide) (by decide)))
      · simp at h
        subst h
        exact chunkOk_nil

theorem deviceParts_ok (p : ErrorPayload) : ∀ part ∈ deviceParts p, chunkOk part := by
  intro part hpart
  unfold deviceParts at hpart
  split at hpart
  · simp at hpart
  · have hpart' := mem_ite_list hpart
    rcases List.mem_cons.mp hpart' with h | h
    · subst h; exact chunkOk_of_head _ (by decide) (by decide)
    · rcases List.mem_append.mp h with h | h
      · simp only [List.append_assoc, List.mem_append] at h
        rcases h with h | h | h | h | h
        · rw [mem_ite_singleton h]
          exact chunkOk_append (chunkOk_of_head _ (by decide) (by decide))
            (chunkOk_append (chunkOk_esc _) (chunkOk_of_head _ (by decide) (by decide)))
        · rw [mem_ite_singleton h]
          exact chunkOk_append (chunkOk_of_head _ (by decide) (by decide)) (chunkOk_esc _)
        · rw [mem_ite_singleton h]
          exact chunkOk_append (chunkOk_of_head _ (by decide) (by decide))
            (chunkOk_append (chunkOk_esc _) (chunkOk_of_head _ (by decide) (by decide)))
        · rw [mem_ite_singleton h]
          exact chunkOk_append (chunkOk_of_head _ (by decide) (by decide)) (chunkOk_esc _)
        · rw [mem_ite_singleton h]
          refine chunkOk_append (chunkOk_of_head _ (by decide) (by decide))
            (chunkOk_intercalate _ (chunkOk_of_head _ (by decide) (by decide)) _ ?_)
          intro x hx
          simp only [List.mem_append] at hx
          rcases hx with hx | hx | hx <;>
          · split at hx
            · simp only [List.mem_singleton] at hx
              subst hx
              exact chunkOk_append (chunkOk_of_head _ (by decide) (by decide))
                (chunkOk_append (chunkOk_plain (format1f_plain _))
                  (chunkOk_of_head _ (by decide) (by decide)))
            · simp at hx
      · simp at h
        subst h
        exact chunkOk_nil

theorem tagsParts_ok (p : ErrorPayload) : ∀ part ∈ tagsParts p, chunkOk part := by
  intro part hpart
  unfold tagsParts at hpart
  have hpart' := mem_ite_list hpart
  rcases List.mem_cons.mp hpart' with h | h
  · subst h
    refine chunkOk_append (chunkOk_of_head _ (by decide) (by decide))
      (chunkOk_intercalate _ (chunkOk_of_head _ (by decide) (by decide)) _ ?_)
    intro x hx
    obtain ⟨kv, -, hkv⟩ := List.mem_map.mp hx
    subst hkv
    exact chunkOk_append (chunkOk_append (chunkOk₃ (chunkOk_of_head _ (by decide) (by decide))
      (chunkOk_esc _) (chunkOk_of_head _ (by decide) (by decide))) (chunkOk_esc _))
      (chunkOk_of_head _ (by decide) (by decide))
  · simp at h
    subst h
    exact chunkOk_nil

theorem chunkOk_metaStr (p : ErrorPayload) : chunkOk (metaStrOf p) := by
  unfold metaStrOf
  refine chunkOk_intercalate _ (chunkOk_of_head _ (by decide) (by decide)) _ ?_
  intro x hx
  obtain ⟨kv, -, hkv⟩ := List.mem_map.mp hx
  subst hkv
  exact chunkOk₃ (chunkOk_append (chunkOk_of_head _ (by decide) (by decide))
    (chunkOk_esc _)) (chunkOk_of_head _ (by decide) (by decide)) (chunkOk_esc _)

theorem metadataParts_ok (svc : TelegramService) (p : ErrorPayload)
    (hmeta : (metaStrOf p).length ≤ svc.max_metadata) :
    ∀ part ∈ metadataParts svc p, chunkOk part := by
  intro part hpart
  simp only [metadataParts] at hpart
  have hpart' := mem_ite_list hpart
  rcases List.mem_cons.mp hpart' with h | h
  · subst h; exact chunkOk_of_head _ (by decide) (by decide)
  · rcases List.mem_cons.mp h with h | h
    · subst h
      rw [if_neg (by omega : ¬ svc.max_metadata < (metaStrOf p).length)]
      exact chunkOk₃ (chunkOk_of_head _ (by decide) (by decide)) (chunkOk_metaStr p)
        (chunkOk_of_head _ (by decide) (by decide))
    · simp at h
      subst h
      exact chunkOk_nil

theorem stacktraceParts_ok (svc : TelegramService) (p : ErrorPayload) :
    ∀ part ∈ stacktraceParts svc p, chunkOk part := by
  intro part hpart
  unfold stacktraceParts at hpart
  have hpart' := mem_ite_list hpart
  rcases List.mem_cons.mp hpart' with h | h
  · subst h; exact chunkOk_of_head _ (by decide) (by decide)
  · rcases List.mem_cons.mp h with h | h
    · subst h
      exact chunkOk₃ (chunkOk_of_head _ (by decide) (by decide)) (chunkOk_esc _)
        (chunkOk_of_head _ (by decide) (by decide))
    · simp at h
      subst h
      exact chunkOk_nil

theorem tsLine_ok (p : ErrorPayload) : chunkOk (tsLine p) := by
  unfold tsLine
  exact chunkOk₃ (chunkOk_of_head _ (by decide) (by decide))
    (chunkOk_plain (strftimeTs_plain _)) (chunkOk_of_head _ (by decide) (by decide))

theorem fingerprintParts_ok (p : ErrorPayload) :
    ∀ part ∈ fingerprintParts p, chunkOk part := by
  intro part hpart
  unfold fingerprintParts at hpart
  rw [mem_ite_singleton hpart]
  exact chunkOk₃ (chunkOk_of_head _ (by decide) (by decide)) (chunkOk_esc _)
    (chunkOk_of_head _ (by decide) (by decide))

theorem partsOf_ok (svc : TelegramService) (p : ErrorPayload) (error_id : List Char)
    (hid : plainChars error_id)
    (hmeta : (metaStrOf p).length ≤ svc.max_metadata) :
    ∀ part ∈ partsOf svc p error_id, chunkOk part := by
  intro part hpart
  unfold partsOf at hpart
  simp only [List.append_assoc, List.mem_append, List.mem_cons, List.mem_singleton,
    List.not_mem_nil, or_false, false_or] at hpart
  rcases hpart with (h | h) | h | h | h | h | h | h | h | h | h | h | h | h | h | h
  · subst h; exact chunkOk_headerLine p error_id hid
  · subst h; exact chunkOk_nil
  · subst h
    exact chunkOk_append (chunkOk_of_head _ (by decide) (by decide)) (chunkOk_esc _)
  · exact typeParts_ok p part h
  · exact codeParts_ok p part h
  · exact locationParts_ok p part h
  · subst h; exact chunkOk_nil
  · exact appParts_ok p part h
  · exact contextParts_ok p part h
  · exact userParts_ok p part h
  · exact deviceParts_ok p part h
  · exact tagsParts_ok p part h
  · exact metadataParts_ok svc p hmeta part h
  · exact stacktraceParts_ok svc p part h
  · subst h; exact tsLine_ok p
  · exact fingerprintParts_ok p part h

/-- C9 amended: provided the error id contains no markup-significant
characters, the metadata text stays within its ceiling (so the metadata cut
does not fire), and the assembled message stays within 4096 characters (so
the final cut does not fire), the formatted output is well-formed: every
`<`/`>` belongs to a structural tag and every `&` starts a complete escape
entity — i.e. every `&`, `<`, `>` of a free-text field appears only in its
escaped form, and structural literals are never escaped.  (The stacktrace
cut needs no proviso: it is applied before escaping.)  The truncation cuts,
however, may split an escape entity — see the counterexample. -/
theorem C9_escaped_output_wellformed (svc : TelegramService) (p : ErrorPayload)
    (error_id : List Char) (hid : plainChars error_id)
    (hmeta : (metaStrOf p).length ≤ svc.max_metadata)
    (hlen : (assembleMessage svc p error_id).length ≤ 4096) :
    htmlOk (svc.format_message p error_id) = true := by
  rw [format_message_no_overflow svc p error_id hlen]
  show htmlOkAux ' ' (assembleMessage svc p error_id) = true
  unfold assembleMessage
  exact chunkOk_intercalate (chars "\n") (chunkOk_of_head _ (by decide) (by decide))
    (partsOf svc p error_id) (partsOf_ok svc p error_id hid hmeta) ' '

/-- C9 witness: the amended theorem applied to a small payload and a hex
error id. -/
theorem C9_escaped_output_wellformed_witness :
    htmlOk (defaultService.format_message pMin idC1) = true :=
  C9_escaped_output_wellformed defaultService pMin idC1
    (plainChars_of_all _ (by decide)) (by decide) (by decide)

/-- A payload whose single metadata value is 199 ampersands: the escaped
metadata text is 1001 characters, one past the default 1000 ceiling, and the
cut lands inside the final `&amp;` entity, leaving the bare fragment
`&amp` in the output. -/
def pC9 : ErrorPayload :=
  { error_message := chars "boom"
    metadata := some [(chars "ab", List.replicate 199 '&')] }

set_option maxRecDepth 40000 in
theorem pC9_metaStr_length : (metaStrOf pC9).length = 1001 :=
  (lenIs_iff _ _).mp (by decide)

theorem pC9_metadataParts :
    metadataParts defaultService pC9
      = [chars "<b>Metadata</b>",
         chars "<pre>" ++ ((metaStrOf pC9).take 1000 ++ chars "\n  ... (truncated)")
           ++ chars "</pre>", []] := by
  simp only [metadataParts]
  rw [if_pos (by decide : truthy pC9.metadata = true)]
  rw [if_pos (show defaultService.max_metadata < (metaStrOf pC9).length by
    rw [pC9_metaStr_length]
    decide)]
  rfl

theorem pC9_assemble :
    assembleMessage defaultService pC9 idC1
      = List.intercalate (chars "\n")
          ([headerLine pC9 idC1, []]
            ++ [chars "<b>Message:</b> " ++ pyEscape pC9.error_message]
            ++ typeParts pC9 ++ codeParts pC9 ++ locationParts pC9
            ++ [[]]
            ++ appParts pC9 ++ contextParts pC9 ++ userParts pC9 ++ deviceParts pC9
            ++ tagsParts pC9
            ++ [chars "<b>Metadata</b>",
                chars "<pre>" ++ ((metaStrOf pC9).take 1000 ++ chars "\n  ... (truncated)")
                  ++ chars "</pre>", []]
            ++ stacktraceParts defaultService pC9
            ++ [tsLine pC9] ++ fingerprintParts pC9) := by
  unfold assembleMessage partsOf
  rw [pC9_metadataParts]

set_option maxRecDepth 40000 in
theorem pC9_assemble_length : (assembleMessage defaultService pC9 idC1).length = 1155 := by
  rw [pC9_assemble]
  exact (lenIs_iff _ _).mp (by decide)

set_option maxRecDepth 40000 in
/-- C9 counterexample: with the 199-ampersand metadata value, the metadata
ceiling cut (which runs after escaping) splits the last `&amp;` entity, so
the formatted output contains a bare `&` that does not start an escape
entity — the well-formedness scan fails, falsifying "every occurrence
appears only in its escaped form". -/
theorem C9_metadata_cut_splits_entity :
    htmlOk (defaultService.format_message pC9 idC1) = false := by
  rw [format_message_no_overflow defaultService pC9 idC1 (by rw [pC9_assemble_length]; norm_num)]
  rw [show assembleMessage defaultService pC9 idC1
      = List.intercalate (chars "\n")
          ([headerLine pC9 idC1, []]
            ++ [chars "<b>Message:</b> " ++ pyEscape pC9.error_message]
            ++ typeParts pC9 ++ codeParts pC9 ++ locationParts pC9
            ++ [[]]
            ++ appParts pC9 ++ contextParts pC9 ++ userParts pC9 ++ deviceParts pC9
            ++ tagsParts pC9
            ++ [chars "<b>Metadata</b>",
                chars "<pre>" ++ ((metaStrOf pC9).take 1000 ++ chars "\n  ... (truncated)")
                  ++ chars "</pre>", []]
            ++ stacktraceParts defaultService pC9
            ++ [tsLine pC9] ++ fingerprintParts pC9) from pC9_assemble]
  decide
